import Mathlib

/-!
# Verification of the `easy_baxter` image-processing pipeline

Shallow embedding of `src/scripts/image_processing.py` (the perception
pipeline: ROI extraction, color segmentation, contour filtering, pose
estimation) and proofs of the specification's claims about it.

Modelling conventions:
* Python floats are modelled as exact numbers: pixel arithmetic, image
  moments, scale factors and rounding over `ℚ`; the trigonometric angle
  computation over `ℝ`.
* OpenCV calls whose output feeds the modelled code (`cv2.minAreaRect` +
  `cv2.boxPoints`, `cv2.drawContours`) are abstracted as function
  parameters; OpenCV calls whose internal arithmetic the claims are about
  (`cv2.moments`, `cv2.contourArea`, `cv2.inRange`) are embedded from the
  OpenCV polygon-moment / shoelace / per-channel-range formulas.
* A Python `ZeroDivisionError` escaping `detect` is modelled as
  `Except.error ()`.
-/

/-- A 2-D integer pixel point, as produced by `np.intp(...)`. -/
abbrev PointZ := ℤ × ℤ

/-- A 2-D rational point (exact model of an OpenCV float point). -/
abbrev PointQ := ℚ × ℚ

/-- Four corner points of a fitted bounding rectangle, integer coordinates
(`box_points = np.intp(cv2.boxPoints(rect))`, line 99). -/
abbrev QuadZ := PointZ × PointZ × PointZ × PointZ

/-- Four corner points before the integer truncation (the float output of
`cv2.boxPoints`). -/
abbrev QuadQ := PointQ × PointQ × PointQ × PointQ

/-- A contour: the point list returned by `cv2.findContours`. -/
abbrev Contour := List PointZ

/-- `np.intp` applied to a float: C-style cast, truncation toward zero. -/
def npIntp (x : ℚ) : ℤ := if 0 ≤ x then ⌊x⌋ else ⌈x⌉

/-- `np.intp` applied componentwise to the four box points (line 99). -/
def npIntp4 (q : QuadQ) : QuadZ :=
  ((npIntp q.1.1, npIntp q.1.2),
   (npIntp q.2.1.1, npIntp q.2.1.2),
   (npIntp q.2.2.1.1, npIntp q.2.2.1.2),
   (npIntp q.2.2.2.1, npIntp q.2.2.2.2))

/-- Euclidean norm of a 2-vector, `np.linalg.norm` (lines 72, 76-77). -/
noncomputable def vnorm (v : ℝ × ℝ) : ℝ := Real.sqrt (v.1 ^ 2 + v.2 ^ 2)

/-- Python's float `%` operator for a positive modulus:
`x % y = x - y * floor (x / y)` (line 81). -/
noncomputable def pymod (x y : ℝ) : ℝ := x - y * ⌊x / y⌋

/-- The difference `b - a` of two integer points, as a real vector
(lines 68-69: `rect_points[1] - rect_points[0]` etc.). -/
def edgeVec (a b : PointZ) : ℝ × ℝ := (((b.1 - a.1 : ℤ) : ℝ), ((b.2 - a.2 : ℤ) : ℝ))

/-- The edge `get_angle` measures: `edge1 = p1 - p0`, `edge2 = p2 - p1`,
and `edge2` is used iff its norm is strictly greater (lines 68-73). -/
noncomputable def usedEdge (q : QuadZ) : ℝ × ℝ :=
  let edge1 := edgeVec q.1 q.2.1
  let edge2 := edgeVec q.2.1 q.2.2.1
  if vnorm edge2 > vnorm edge1 then edge2 else edge1

/-- `get_angle` (lines 65-81), with the source's literal operator
precedence: the arccos argument is
`norm(reference) / norm(used_edge) / reference[0] * used_edge[0]
 + reference[1] * used_edge[1]` with `reference = [1.0, 0.0]`. -/
noncomputable def get_angle (q : QuadZ) : ℝ :=
  let used_edge := usedEdge q
  let reference : ℝ × ℝ := (1.0, 0.0)
  let my_angle :=
    Real.arccos (vnorm reference / vnorm used_edge / reference.1 * used_edge.1 +
      reference.2 * used_edge.2) + Real.pi
  pymod my_angle (2 * Real.pi) - Real.pi

/-- Python's `round(x, 2)`: round to two decimal places, ties to even
(exact-arithmetic model of the builtin; lines 104, 106, 109). -/
def pyRound2 {α : Type} [LinearOrderedField α] [FloorRing α] (x : α) : α :=
  let n : ℤ := ⌊100 * x⌋
  let f : α := 100 * x - (n : α)
  let m : ℤ :=
    if f < 1 / 2 then n else if 1 / 2 < f then n + 1 else if 2 ∣ n then n else n + 1
  (m : α) / 100

/-- One shoelace cross term `x_prev * y_cur - x_cur * y_prev`. -/
def crossTerm (p q : PointZ) : ℤ := p.1 * q.2 - q.1 * p.2

/-- Sum of the shoelace cross terms over the closed polygon, pairing each
point with its predecessor, starting from the last point (the iteration
order of OpenCV's contour routines). -/
def shoelaceSum : List PointZ → ℤ
  | [] => 0
  | p :: ps => go ((p :: ps).getLast (by simp)) (p :: ps)
where
  go : PointZ → List PointZ → ℤ
    | _, [] => 0
    | prev, q :: qs => crossTerm prev q + go q qs

/-- `cv2.contourArea` (line 97): half the absolute shoelace sum of the
closed polygon. -/
def contourArea (c : Contour) : ℚ := (|shoelaceSum c| : ℤ) / 2

/-- `cv2.moments` applied to the four integer box points (line 100):
OpenCV's contour moments `(m00, m10, m01)` by Green's theorem, with the
sign normalized so that `m00 ≥ 0`, and all moments zero when the signed
area is zero. -/
def cvMoments (q : QuadZ) : ℚ × ℚ × ℚ :=
  let pts : List PointZ := [q.1, q.2.1, q.2.2.1, q.2.2.2]
  let a00 : ℤ := shoelaceSum pts
  let a10 : ℤ := momentGo (pts.getLast (by simp)) pts (fun p r => p.1 + r.1)
  let a01 : ℤ := momentGo (pts.getLast (by simp)) pts (fun p r => p.2 + r.2)
  if a00 = 0 then (0, 0, 0)
  else if 0 < a00 then ((a00 : ℚ) / 2, (a10 : ℚ) / 6, (a01 : ℚ) / 6)
  else (-((a00 : ℚ) / 2), -((a10 : ℚ) / 6), -((a01 : ℚ) / 6))
where
  /-- `Σ cross(prev, cur) * w(prev, cur)` over the closed polygon. -/
  momentGo : PointZ → List PointZ → (PointZ → PointZ → ℤ) → ℤ
    | _, [], _ => 0
    | prev, p :: ps, w => crossTerm prev p * w prev p + momentGo p ps w

/-- A detected object, mirroring the appended value
`[[-center_x, center_y, 6.5], [0.0, 0.0, angle]]` (line 111):
`((x, y, z), (roll, pitch, yaw))`. -/
abbrev DetObj := (ℚ × ℚ × ℚ) × (ℚ × ℚ × ℝ)

/-- The pose computed for one surviving bounding rectangle
(lines 100-111): centroid from the image moments, re-centered on the ROI
midpoint, scaled, rounded to two decimals, x negated; z fixed at 6.5;
roll and pitch fixed at 0; yaw from `get_angle`, rounded to two decimals.
Only evaluated by `detect` after checking `m00 ≠ 0`. -/
noncomputable def poseOf (bp : QuadZ) (dims scale : ℚ × ℚ) : DetObj :=
  let m := cvMoments bp
  let center_x0 := m.2.1 / m.1 - dims.1 / 2
  let center_x := pyRound2 (center_x0 * scale.1)
  let center_y0 := m.2.2 / m.1 - dims.2 / 2
  let center_y := pyRound2 (center_y0 * scale.2)
  let angle := pyRound2 (get_angle bp)
  ((-center_x, center_y, 6.5), (0, 0, angle))

/-- A displayed image: BGR pixel value at coordinates `(x, y)`. -/
abbrev Img := ℕ → ℕ → ℕ × ℕ × ℕ

/-- The contour loop of `detect` (lines 93-114). External OpenCV calls
are parameters: `box` is `cv2.boxPoints (cv2.minAreaRect contour)`
(line 98-99) and `draw` is `cv2.drawContours display [box_points]`
(line 112). A contour is processed iff `cv2.contourArea > 800.0`
(line 97). The unguarded Python division `moments['m10']/moments['m00']`
(line 103) raises `ZeroDivisionError` when `m00 = 0`, modelled as
`Except.error ()`; otherwise the object is appended and the rectangle is
drawn on the running display buffer. -/
noncomputable def detect (box : Contour → QuadQ) (draw : QuadZ → Img → Img)
    (dims scale : ℚ × ℚ) : List Contour → Img → Except Unit (List DetObj × Img)
  | [], display => .ok ([], display)
  | c :: rest, display =>
    if 800 < contourArea c then
      let bp := npIntp4 (box c)
      if (cvMoments bp).1 = 0 then .error ()
      else
        match detect box draw dims scale rest (draw bp display) with
        | .error e => .error e
        | .ok (tail, display') => .ok (poseOf bp dims scale :: tail, display')
    else detect box draw dims scale rest display

/-- Real-world ROI width in cm (line 36). -/
def ACTUAL_WIDTH : ℚ := 43

/-- Real-world ROI height in cm (line 37). -/
def ACTUAL_HEIGHT : ℚ := 20

/-- `upper_left = (0, int(height/3))` (line 149): x, then y. -/
def upper_left (h : ℕ) : ℕ × ℕ := (0, h / 3)

/-- `bottom_right = (int(width), int(height))` (line 150). -/
def bottom_right (h w : ℕ) : ℕ × ℕ := (w, h)

/-- The pixel row range kept by the crop, `vertical` (line 153). -/
def verticalRange (h w : ℕ) : ℕ × ℕ := ((upper_left h).2, (bottom_right h w).2)

/-- The pixel column range kept by the crop, `horizontal` (line 152). -/
def horizontalRange (h w : ℕ) : ℕ × ℕ := ((upper_left h).1, (bottom_right h w).1)

/-- `(cropped_width, cropped_height)` (lines 155-157). -/
def croppedDims (h w : ℕ) : ℚ × ℚ :=
  (((horizontalRange h w).2 - (horizontalRange h w).1 : ℕ),
   ((verticalRange h w).2 - (verticalRange h w).1 : ℕ))

/-- `scale = [width_scale, height_scale]` (lines 159-161). A zero cropped
dimension would raise `ZeroDivisionError` in Python; the claims only touch
positive cropped dimensions, where the `ℚ` division agrees. -/
def scaleOf (h w : ℕ) : ℚ × ℚ :=
  (ACTUAL_WIDTH / (croppedDims h w).1, ACTUAL_HEIGHT / (croppedDims h w).2)

/-- The cropped view `raw[vertical[0]:vertical[1], horizontal[0]:horizontal[1]]`
(line 164): pixel `(x, y)` of the crop is pixel `(x, y + h/3)` of the frame. -/
def cropImage (raw : Img) (h : ℕ) : Img := fun x y => raw x (y + h / 3)

/-- The center line of the rectangle outline drawn by
`cv2.rectangle(raw, upper_left, bottom_right, (0, 0, 0), 2)` (line 166).
The two-pixel thickness halo around this line is omitted: which exact
halo pixels OpenCV touches is immaterial to the claims, which only need
that outline pixels of the caller's buffer are overwritten. -/
def onOutline (ul br : ℕ × ℕ) (x y : ℕ) : Prop :=
  (ul.1 ≤ x ∧ x ≤ br.1 ∧ (y = ul.2 ∨ y = br.2)) ∨
  (ul.2 ≤ y ∧ y ≤ br.2 ∧ (x = ul.1 ∨ x = br.1))

instance (ul br : ℕ × ℕ) (x y : ℕ) : Decidable (onOutline ul br x y) := by
  unfold onOutline; infer_instance

/-- `cv2.rectangle`: overwrite the outline pixels with `color`, in place
on the target buffer. -/
def cv2rectangle (img : Img) (ul br : ℕ × ℕ) (color : ℕ × ℕ × ℕ) : Img :=
  fun x y => if onOutline ul br x y then color else img x y

/-- The effect of `process_image` on the caller's frame buffer `raw`
(line 166): the ROI boundary is drawn directly on `raw` — the source
takes no copy. (`raw_cropped`, line 165, additionally aliases `raw`, so
the `cv2.drawContours` overlays of line 112 also write through to `raw`;
the boundary drawing alone already decides the frame-mutation claim.) -/
def process_image_frame_effect (raw : Img) (h w : ℕ) : Img :=
  cv2rectangle raw (upper_left h) (bottom_right h w) (0, 0, 0)

/-- An HSV pixel: `(hue, saturation, value)`. -/
abbrev HSV := ℕ × ℕ × ℕ

/-- `cv2.inRange` at one pixel: per-channel inclusive bounds test. -/
def inRange (lo hi p : HSV) : Bool :=
  decide (lo.1 ≤ p.1 ∧ p.1 ≤ hi.1 ∧ lo.2.1 ≤ p.2.1 ∧ p.2.1 ≤ hi.2.1 ∧
    lo.2.2 ≤ p.2.2 ∧ p.2.2 ≤ hi.2.2)

/-- `LOWER_RED_1` (line 50). -/
def LOWER_RED_1 : HSV := (0, 70, 0)

/-- `UPPER_RED_1` (line 51). -/
def UPPER_RED_1 : HSV := (10, 255, 255)

/-- `LOWER_RED_2` (line 52). -/
def LOWER_RED_2 : HSV := (150, 70, 50)

/-- `UPPER_RED_2` (line 53). -/
def UPPER_RED_2 : HSV := (179, 255, 255)

/-- The red mask before morphology, at one pixel (lines 189-191):
`cv2.bitwise_or(cv2.inRange(hsv, LOWER_RED_1, UPPER_RED_1),
cv2.inRange(hsv, LOWER_RED_2, UPPER_RED_2))`. -/
def maskRed (p : HSV) : Bool :=
  inRange LOWER_RED_1 UPPER_RED_1 p || inRange LOWER_RED_2 UPPER_RED_2 p

/-- The four color classes the orchestrator builds masks for
(lines 188-212). -/
inductive ColorClassId | red | blue | green | yellow
deriving DecidableEq

/-- The classes a mask is produced for, in source order (lines 188-212). -/
def maskedClasses : List ColorClassId := [.red, .blue, .green, .yellow]

/-- The detection/aggregation portion of `process_image`
(lines 214-216 and 232): `detect` is run on the green, yellow, and red
masked images, in that order, threading one shared display buffer
(initially `raw_cropped`), and the final arrangement is
`[cubes, cuboids, long_cuboids]`. `contoursOf c` stands for the contours
OpenCV finds in class `c`'s masked image (`res_g`, `res_y`, `res_r`,
`res_b`). -/
noncomputable def process_image_detections (box : Contour → QuadQ)
    (draw : QuadZ → Img → Img) (contoursOf : ColorClassId → List Contour)
    (dims scale : ℚ × ℚ) (raw_cropped : Img) :
    Except Unit (List (List DetObj) × Img) :=
  match detect box draw dims scale (contoursOf .green) raw_cropped with
  | .error e => .error e
  | .ok (cubes, display₁) =>
    match detect box draw dims scale (contoursOf .yellow) display₁ with
    | .error e => .error e
    | .ok (cuboids, display₂) =>
      match detect box draw dims scale (contoursOf .red) display₂ with
      | .error e => .error e
      | .ok (long_cuboids, display₃) =>
          .ok ([cubes, cuboids, long_cuboids], display₃)

/-- The claim's position formula (C3), amended with the rounding the
source applies: with pixel centroid `(cx, cy) = (m10/m00, m01/m00)`,
position `x = -round((cx - w/2) * sx, 2)`, `y = round((cy - h/2) * sy, 2)`,
`z = 6.5` fixed; roll and pitch zero and yaw the rounded `get_angle`. -/
noncomputable def claimPose (bp : QuadZ) (dims scale : ℚ × ℚ) : DetObj :=
  let cx := (cvMoments bp).2.1 / (cvMoments bp).1
  let cy := (cvMoments bp).2.2 / (cvMoments bp).1
  ((-(pyRound2 ((cx - dims.1 / 2) * scale.1)),
    pyRound2 ((cy - dims.2 / 2) * scale.2), 6.5),
   (0, 0, pyRound2 (get_angle bp)))

/-- A drawing routine that leaves the display unchanged (an admissible
instantiation of the abstract `cv2.drawContours`). -/
def drawNone : QuadZ → Img → Img := fun _ img => img

/-- An all-black frame. -/
def imgBlack : Img := fun _ _ => (0, 0, 0)

/-- An all-white frame. -/
def imgWhite : Img := fun _ _ => (255, 255, 255)

/-- A thin 900 x 1 contour of shoelace area 900 (> 800). -/
def cThin : Contour := [(0, 0), (900, 0), (900, 1), (0, 1)]

/-- A box-fitting result for `cThin` whose float corners all truncate to
the same pixel row: `np.intp` maps it to four collinear integer points,
so its `m00` vanishes. -/
def boxDeg : Contour → QuadQ :=
  fun _ => ((0, 1/5), (900, 1/5), (900, 9/10), (0, 9/10))

/-- A 90 x 10 axis-aligned rectangular contour, shoelace area 900. -/
def cRect : Contour := [(0, 0), (90, 0), (90, 10), (0, 10)]

/-- The box fitting that returns `cRect`'s own corners. -/
def boxRect : Contour → QuadQ := fun _ => ((0, 0), (90, 0), (90, 10), (0, 10))

/-- The integer box points `np.intp(boxRect cRect)`. -/
def bpRect : QuadZ := npIntp4 (boxRect cRect)

/-- A 40 x 20 rectangular contour of shoelace area exactly 800. -/
def cEdge800 : Contour := [(0, 0), (40, 0), (40, 20), (0, 20)]

/-- Per-class contours with one large contour in the blue class only. -/
def contoursBlueOnly : ColorClassId → List Contour :=
  fun c => if c = .blue then [cRect] else []

/-- Rectangle corner list for the C1 counterexample: `edge1 = (-2, 0)`
(the longer edge, norm 2), `edge2 = (0, 1)` (norm 1). -/
def qNegX : QuadZ := ((2, 0), (0, 0), (0, 1), (2, 1))

/-- Rectangle corner list for the C1 witness: `edge1 = (0, 1)`,
`edge2 = (1, 0)`, equal norms, so `edge1` is used. -/
def qUp : QuadZ := ((0, 0), (0, 1), (1, 1), (1, 2))

section Helpers

/-- `pyRound2` always returns an integer number of hundredths. -/
lemma pyRound2_exists_int {α : Type} [LinearOrderedField α] [FloorRing α]
    (x : α) : ∃ i : ℤ, pyRound2 x = (i : α) / 100 :=
  ⟨_, rfl⟩

lemma sqrt_four : Real.sqrt 4 = 2 := by
  rw [show (4 : ℝ) = 2 ^ 2 by norm_num, Real.sqrt_sq (by norm_num)]

/-- The arccos argument of `get_angle`, with the source's literal
precedence, collapses to `e.1 / ‖e‖` because the reference is `(1, 0)`. -/
lemma arccos_arg_eq (e : ℝ × ℝ) :
    vnorm (1.0, 0.0) / vnorm e / (1.0 : ℝ) * e.1 + (0.0 : ℝ) * e.2 =
      e.1 / vnorm e := by
  have h1 : vnorm ((1.0 : ℝ), (0.0 : ℝ)) = 1 := by
    simp only [vnorm]
    norm_num
  rw [h1]
  ring

/-- Normalization step of `get_angle` for an angle in `[0, π)`. -/
lemma pymod_shift {θ : ℝ} (h0 : 0 ≤ θ) (hπ : θ < Real.pi) :
    pymod (θ + Real.pi) (2 * Real.pi) - Real.pi = θ := by
  have hpi : (0 : ℝ) < Real.pi := Real.pi_pos
  have hfl : ⌊(θ + Real.pi) / (2 * Real.pi)⌋ = 0 := by
    rw [Int.floor_eq_zero_iff]
    constructor
    · positivity
    · rw [div_lt_one (by positivity)]
      linarith
  unfold pymod
  rw [hfl]
  ring

/-- Normalization step of `get_angle` at the boundary angle `π`. -/
lemma pymod_at_pi :
    pymod (Real.pi + Real.pi) (2 * Real.pi) - Real.pi = -Real.pi := by
  have hpi : (0 : ℝ) < Real.pi := Real.pi_pos
  have h2 : (Real.pi + Real.pi) / (2 * Real.pi) = 1 := by
    field_simp
    ring
  unfold pymod
  rw [h2, Int.floor_one]
  push_cast
  ring

end Helpers

/-- **C7.** For every HSV pixel, the dual-range red mask (before
morphology) is set iff the pixel lies within `[LOWER_RED_1, UPPER_RED_1]`
or within `[LOWER_RED_2, UPPER_RED_2]`, each tested per-channel with
inclusive bounds; and a hue strictly between the two sub-ranges
(`10 < hue < 150`) is excluded whatever its saturation and value. -/
theorem red_mask_dual_range (p : HSV) :
    (maskRed p = true ↔
      ((0 ≤ p.1 ∧ p.1 ≤ 10 ∧ 70 ≤ p.2.1 ∧ p.2.1 ≤ 255 ∧
        0 ≤ p.2.2 ∧ p.2.2 ≤ 255) ∨
       (150 ≤ p.1 ∧ p.1 ≤ 179 ∧ 70 ≤ p.2.1 ∧ p.2.1 ≤ 255 ∧
        50 ≤ p.2.2 ∧ p.2.2 ≤ 255))) ∧
    (10 < p.1 → p.1 < 150 → maskRed p = false) := by
  constructor
  · simp [maskRed, inRange, LOWER_RED_1, UPPER_RED_1, LOWER_RED_2, UPPER_RED_2]
  · intro h1 h2
    simp only [maskRed, inRange, LOWER_RED_1, UPPER_RED_1, LOWER_RED_2,
      UPPER_RED_2, Bool.or_eq_false_iff, decide_eq_false_iff_not]
    omega

/-- Witness for C7: a pixel of hue 80 (strictly between the ranges) is
not red; a pixel of hue 5 with admissible saturation/value is red. -/
theorem red_mask_dual_range_witness :
    maskRed (80, 200, 200) = false ∧ maskRed (5, 80, 100) = true :=
  ⟨(red_mask_dual_range (80, 200, 200)).2 (by norm_num) (by norm_num),
   (red_mask_dual_range (5, 80, 100)).1.mpr (by norm_num)⟩

/-- **C8.** For every frame of pixel height `h` and width `w`, the ROI
extractor keeps rows `⌊h/3⌋` through `h` and all columns, the cropped
pixel at `(x, y)` is the frame pixel at `(x, y + ⌊h/3⌋)`, the scale
factors are the configured real-world dimensions divided by the cropped
pixel dimensions, and both are strictly positive whenever the cropped
dimensions are. -/
theorem roi_crop_and_scale (h w : ℕ) :
    verticalRange h w = (h / 3, h) ∧
    horizontalRange h w = (0, w) ∧
    (∀ raw x y, cropImage raw h x y = raw x (y + h / 3)) ∧
    (scaleOf h w).1 = ACTUAL_WIDTH / (w : ℚ) ∧
    (scaleOf h w).2 = ACTUAL_HEIGHT / ((h : ℚ) - ((h / 3 : ℕ) : ℚ)) ∧
    (0 < w → 0 < (scaleOf h w).1) ∧
    (0 < h - h / 3 → 0 < (scaleOf h w).2) := by
  have hle : h / 3 ≤ h := Nat.div_le_self h 3
  have hw : (scaleOf h w).1 = ACTUAL_WIDTH / (w : ℚ) := by
    simp [scaleOf, croppedDims, horizontalRange, upper_left, bottom_right]
  have hh : (scaleOf h w).2 = ACTUAL_HEIGHT / ((h : ℚ) - ((h / 3 : ℕ) : ℚ)) := by
    simp only [scaleOf, croppedDims, verticalRange, upper_left, bottom_right]
    rw [Nat.cast_sub hle]
  refine ⟨rfl, rfl, fun raw x y => rfl, hw, hh, ?_, ?_⟩
  · intro hwpos
    rw [hw]
    apply div_pos (by norm_num [ACTUAL_WIDTH])
    exact_mod_cast hwpos
  · intro hhpos
    rw [hh, ← Nat.cast_sub hle]
    apply div_pos (by norm_num [ACTUAL_HEIGHT])
    exact_mod_cast hhpos

/-- Witness for C8: a 6 x 6 frame has positive scale factors
(43/6 and 20/4). -/
theorem roi_crop_and_scale_witness :
    0 < (scaleOf 6 6).1 ∧ 0 < (scaleOf 6 6).2 :=
  ⟨(roi_crop_and_scale 6 6).2.2.2.2.2.1 (by norm_num),
   (roi_crop_and_scale 6 6).2.2.2.2.2.2 (by norm_num)⟩

/-- **C5 (counterexample).** The pipeline does not leave the caller's
frame unchanged: on an all-white 6 x 6 frame, the pixel at the ROI
boundary corner `(0, h/3) = (0, 2)` is overwritten with black on the
buffer passed in — `cv2.rectangle` (line 166) targets `raw` itself, not
a copy. -/
theorem frame_mutated_counterexample :
    process_image_frame_effect imgWhite 6 6 0 2 = (0, 0, 0) ∧
    imgWhite 0 2 = (255, 255, 255) ∧
    ((0, 0, 0) : ℕ × ℕ × ℕ) ≠ (255, 255, 255) := by
  refine ⟨?_, rfl, by decide⟩
  simp only [process_image_frame_effect, cv2rectangle, upper_left, bottom_right]
  rw [if_pos]
  right
  exact ⟨by norm_num, by norm_num, Or.inl rfl⟩

/-- **C5 (amended).** The ROI boundary (and, through the `raw_cropped`
view, the rectangle overlays) is drawn directly on the caller's frame:
every pixel on the boundary outline — in particular the ROI corner
`(0, h/3)` — is overwritten with black, while pixels off the outline keep
their original value. No copy of the frame is taken. -/
theorem frame_effect_draws_on_original (raw : Img) (h w : ℕ) :
    process_image_frame_effect raw h w 0 (h / 3) = (0, 0, 0) ∧
    (∀ x y, ¬ onOutline (upper_left h) (bottom_right h w) x y →
      process_image_frame_effect raw h w x y = raw x y) := by
  constructor
  · simp only [process_image_frame_effect, cv2rectangle, upper_left, bottom_right]
    rw [if_pos]
    right
    exact ⟨le_refl _, Nat.div_le_self h 3, Or.inl rfl⟩
  · intro x y hxy
    simp only [process_image_frame_effect, cv2rectangle]
    exact if_neg hxy

/-- Witness for C5 (amended): on the all-white 6 x 6 frame, the interior
pixel `(3, 4)` (off the outline) is untouched. -/
theorem frame_effect_draws_on_original_witness :
    process_image_frame_effect imgWhite 6 6 3 4 = imgWhite 3 4 :=
  (frame_effect_draws_on_original imgWhite 6 6).2 3 4 (by decide)

section DetectLemmas

variable (box : Contour → QuadQ) (draw : QuadZ → Img → Img)
variable (dims scale : ℚ × ℚ)

/-- An empty contour list yields no detections and no drawing. -/
lemma detect_nil (disp : Img) :
    detect box draw dims scale [] disp = .ok ([], disp) := rfl

/-- A contour failing the area test is skipped. -/
lemma detect_cons_dropped {c : Contour} (h : ¬ 800 < contourArea c)
    (rest : List Contour) (disp : Img) :
    detect box draw dims scale (c :: rest) disp =
      detect box draw dims scale rest disp := by
  rw [detect, if_neg h]

/-- A surviving contour whose truncated box has zero `m00` aborts the
loop with the modelled `ZeroDivisionError`. -/
lemma detect_cons_degenerate {c : Contour} (h : 800 < contourArea c)
    (hm : (cvMoments (npIntp4 (box c))).1 = 0)
    (rest : List Contour) (disp : Img) :
    detect box draw dims scale (c :: rest) disp = .error () := by
  rw [detect, if_pos h]
  simp [hm]

/-- A surviving contour with nonzero `m00` contributes its pose and its
drawing, then the loop continues. -/
lemma detect_cons_kept {c : Contour} (h : 800 < contourArea c)
    (hm : ¬ (cvMoments (npIntp4 (box c))).1 = 0)
    (rest : List Contour) (disp : Img) :
    detect box draw dims scale (c :: rest) disp =
      match detect box draw dims scale rest (draw (npIntp4 (box c)) disp) with
      | .error e => .error e
      | .ok (tail, disp') =>
          .ok (poseOf (npIntp4 (box c)) dims scale :: tail, disp') := by
  rw [detect, if_pos h]
  simp [hm]

end DetectLemmas


/-- **C6 (counterexample).** A contour whose enclosed pixel area is
exactly 800 px² — not below the minimum — is nevertheless dropped: the
source's test is the strict `cv2.contourArea(i) > 800.0` (line 97), so
the 40 x 20 rectangle of area 800 produces no bounding rectangle and no
detection. -/
theorem area_exactly_800_dropped :
    contourArea cEdge800 = 800 ∧
    detect boxRect drawNone (1, 1) (1, 1) [cEdge800] imgBlack =
      .ok ([], imgBlack) := by
  constructor
  · norm_num [contourArea, cEdge800, shoelaceSum, shoelaceSum.go, crossTerm]
  · rw [detect_cons_dropped _ _ _ _
      (by norm_num [contourArea, cEdge800, shoelaceSum, shoelaceSum.go,
        crossTerm]), detect_nil]

/-- **C6 (amended).** A contour is dropped iff its enclosed pixel area is
less than **or equal to** 800 px² (the source tests strictly greater
than): `detect` is unchanged by removing exactly the contours with
`area ≤ 800`, and a class with no surviving contours yields the empty
sequence without error. -/
theorem contour_area_filter_strict (box : Contour → QuadQ)
    (draw : QuadZ → Img → Img) (dims scale : ℚ × ℚ) :
    (∀ cs disp, detect box draw dims scale cs disp =
      detect box draw dims scale
        (cs.filter fun c => decide (800 < contourArea c)) disp) ∧
    (∀ disp, detect box draw dims scale [] disp = .ok ([], disp)) := by
  refine ⟨?_, fun disp => rfl⟩
  intro cs
  induction cs with
  | nil => intro disp; rfl
  | cons c rest ih =>
    intro disp
    by_cases h : 800 < contourArea c
    · rw [List.filter_cons_of_pos (by simpa using h)]
      by_cases hm : (cvMoments (npIntp4 (box c))).1 = 0
      · rw [detect_cons_degenerate _ _ _ _ h hm,
          detect_cons_degenerate _ _ _ _ h hm]
      · rw [detect_cons_kept _ _ _ _ h hm,
          detect_cons_kept _ _ _ _ h hm, ih]
    · rw [List.filter_cons_of_neg (by simpa using h),
        detect_cons_dropped _ _ _ _ h, ih]

/-- **C2 (counterexample).** A candidate bounding rectangle with zero
`m00` is not skipped silently: the thin contour `cThin` (area 900)
whose fitted box corners all truncate to one pixel row gives collinear
integer box points, `m00 = 0`, and the unguarded division at line 103
raises — the frame's processing aborts with an error instead of
producing the empty result. -/
theorem degenerate_rect_raises :
    detect boxDeg drawNone (1, 1) (1, 1) [cThin] imgBlack = .error () ∧
    (Except.error () : Except Unit (List DetObj × Img)) ≠
      .ok ([], imgBlack) := by
  refine ⟨?_, by simp⟩
  exact detect_cons_degenerate _ _ _ _
    (by norm_num [contourArea, cThin, shoelaceSum, shoelaceSum.go, crossTerm])
    (by norm_num [cvMoments, cvMoments.momentGo, npIntp4, npIntp, boxDeg,
      cThin, shoelaceSum, shoelaceSum.go, crossTerm]) _ _

/-- **C2 (amended).** If any contour surviving the area filter has a
truncated box with zero `m00`, the whole per-class detection aborts with
the modelled `ZeroDivisionError`: no silent skip, and the remaining
rectangles of the frame are not processed. -/
theorem degenerate_rect_aborts (box : Contour → QuadQ)
    (draw : QuadZ → Img → Img) (dims scale : ℚ × ℚ)
    (cs : List Contour) (disp : Img) (c : Contour)
    (hc : c ∈ cs) (ha : 800 < contourArea c)
    (hm : (cvMoments (npIntp4 (box c))).1 = 0) :
    detect box draw dims scale cs disp = .error () := by
  induction cs generalizing disp with
  | nil => cases hc
  | cons c' rest ih =>
    rcases List.mem_cons.mp hc with rfl | hmem
    · exact detect_cons_degenerate _ _ _ _ ha hm rest disp
    · by_cases h' : 800 < contourArea c'
      · by_cases hm' : (cvMoments (npIntp4 (box c'))).1 = 0
        · exact detect_cons_degenerate _ _ _ _ h' hm' rest disp
        · rw [detect_cons_kept _ _ _ _ h' hm']
          rw [ih (draw (npIntp4 (box c')) disp) hmem]
      · rw [detect_cons_dropped _ _ _ _ h']
        exact ih disp hmem

/-- Witness for C2 (amended): the degenerate thin-box instance aborts,
and the well-behaved contour after it is never processed. -/
theorem degenerate_rect_aborts_witness :
    detect boxDeg drawNone (1, 1) (1, 1) [cThin, cRect] imgBlack =
      .error () :=
  degenerate_rect_aborts boxDeg drawNone (1, 1) (1, 1) [cThin, cRect]
    imgBlack cThin (by simp)
    (by norm_num [contourArea, cThin, shoelaceSum, shoelaceSum.go, crossTerm])
    (by norm_num [cvMoments, cvMoments.momentGo, npIntp4, npIntp, boxDeg,
      cThin, shoelaceSum, shoelaceSum.go, crossTerm])

/-- Loop invariant of `detect`: when no modelled `ZeroDivisionError`
occurs, the emitted object list is exactly the pose of each contour
surviving the strict area test, in contour order, computed from the
truncated box points. -/
lemma detect_ok_fst (box : Contour → QuadQ) (draw : QuadZ → Img → Img)
    (dims scale : ℚ × ℚ) (cs : List Contour) (disp : Img)
    (res : List DetObj × Img)
    (h : detect box draw dims scale cs disp = .ok res) :
    res.1 = (cs.filter fun c => decide (800 < contourArea c)).map
      (fun c => poseOf (npIntp4 (box c)) dims scale) := by
  induction cs generalizing disp res with
  | nil =>
    rw [detect_nil] at h
    cases h
    rfl
  | cons c rest ih =>
    by_cases ha : 800 < contourArea c
    · by_cases hm : (cvMoments (npIntp4 (box c))).1 = 0
      · rw [detect_cons_degenerate _ _ _ _ ha hm] at h
        cases h
      · rw [detect_cons_kept _ _ _ _ ha hm] at h
        rcases hr : detect box draw dims scale rest
            (draw (npIntp4 (box c)) disp) with e | p
        · rw [hr] at h
          cases h
        · rw [hr] at h
          obtain ⟨tail, disp'⟩ := p
          cases h
          rw [List.filter_cons_of_pos (by simpa using ha), List.map_cons]
          exact congrArg _ (ih _ _ hr)
    · rw [detect_cons_dropped _ _ _ _ ha] at h
      rw [List.filter_cons_of_neg (by simpa using ha)]
      exact ih _ _ h

/-- **C3 (amended).** For every run of the per-class detection that
completes without fault, each surviving rectangle's reported position is
`x = -round((cx - w/2) * sx, 2)`, `y = round((cy - h/2) * sy, 2)` with
`(cx, cy) = (m10/m00, m01/m00)` the pixel centroid, and `z = 6.5`, the
fixed configured standoff (`claimPose`). The claim's unrounded formula
`x = -((cx - w/2) * sx)` does not hold: the source rounds to two decimal
places before negating (lines 104, 106, 111). -/
theorem detected_positions (box : Contour → QuadQ) (draw : QuadZ → Img → Img)
    (dims scale : ℚ × ℚ) (cs : List Contour) (disp : Img)
    (res : List DetObj × Img)
    (h : detect box draw dims scale cs disp = .ok res) :
    res.1 = (cs.filter fun c => decide (800 < contourArea c)).map
      (fun c => claimPose (npIntp4 (box c)) dims scale) :=
  detect_ok_fst box draw dims scale cs disp res h

/-- Witness for C3 (amended): the 90 x 10 box at `dims = (100, 100)`,
`scale = (1/3, 1)` is reported at `claimPose` exactly. -/
theorem detected_positions_witness :
    ([poseOf bpRect (100, 100) (1/3, 1)] : List DetObj) =
      [claimPose (npIntp4 (boxRect cRect)) (100, 100) (1/3, 1)] := by
  have h := detected_positions boxRect drawNone (100, 100) (1/3, 1) [cRect]
    imgBlack ([poseOf bpRect (100, 100) (1/3, 1)], drawNone bpRect imgBlack)
    (by
      rw [detect_cons_kept _ _ _ _
        (by norm_num [contourArea, cRect, shoelaceSum, shoelaceSum.go,
          crossTerm])
        (by norm_num [cvMoments, cvMoments.momentGo, npIntp4, npIntp,
          boxRect, cRect, shoelaceSum, shoelaceSum.go, crossTerm]),
        detect_nil]
      rfl)
  rw [List.filter_cons_of_pos (by norm_num [contourArea, cRect, shoelaceSum,
    shoelaceSum.go, crossTerm]), List.filter_nil, List.map_cons,
    List.map_nil] at h
  exact h

/-- **C3 (counterexample).** The claim's unrounded position formula fails:
for the surviving 90 x 10 rectangle with centroid `cx = 45`, ROI width
100 and `sx = 1/3`, the exact value `-((cx - w/2) * sx) = 5/3` differs
from the reported `x = -round((cx - w/2) * sx, 2) = 167/100`. -/
theorem detected_position_not_unrounded :
    detect boxRect drawNone (100, 100) (1/3, 1) [cRect] imgBlack =
      .ok ([poseOf bpRect (100, 100) (1/3, 1)], drawNone bpRect imgBlack) ∧
    (poseOf bpRect (100, 100) (1/3, 1)).1.1 = 167 / 100 ∧
    -(((cvMoments bpRect).2.1 / (cvMoments bpRect).1 - 100 / 2) * (1 / 3))
      = 5 / 3 ∧
    (167 / 100 : ℚ) ≠ 5 / 3 := by
  refine ⟨?_, ?_, ?_, by norm_num⟩
  · rw [detect_cons_kept _ _ _ _
      (by norm_num [contourArea, cRect, shoelaceSum, shoelaceSum.go,
        crossTerm])
      (by norm_num [cvMoments, cvMoments.momentGo, npIntp4, npIntp,
        boxRect, cRect, shoelaceSum, shoelaceSum.go, crossTerm]),
      detect_nil]
    rfl
  · norm_num [poseOf, pyRound2, cvMoments, cvMoments.momentGo, npIntp4,
      npIntp, bpRect, boxRect, cRect, shoelaceSum, shoelaceSum.go, crossTerm]
  · norm_num [cvMoments, cvMoments.momentGo, npIntp4, npIntp, bpRect,
      boxRect, cRect, shoelaceSum, shoelaceSum.go, crossTerm]

/-- **C10.** Every object emitted by a fault-free run of the per-class
detection comes from the `np.intp`-truncated corner points of some input
contour's fitted box (truncation happens before the centroid and angle
are computed), and its reported `x`, `y` and yaw are each rounded to two
decimal places — every emitted value is an integer multiple of `1/100`. -/
theorem emitted_values_rounded (box : Contour → QuadQ)
    (draw : QuadZ → Img → Img) (dims scale : ℚ × ℚ) (cs : List Contour)
    (disp : Img) (res : List DetObj × Img)
    (h : detect box draw dims scale cs disp = .ok res) :
    ∀ obj ∈ res.1,
      (∃ c ∈ cs, obj = poseOf (npIntp4 (box c)) dims scale) ∧
      (∃ i : ℤ, obj.1.1 = (i : ℚ) / 100) ∧
      (∃ i : ℤ, obj.1.2.1 = (i : ℚ) / 100) ∧
      (∃ i : ℤ, obj.2.2.2 = (i : ℝ) / 100) := by
  intro obj hobj
  rw [detect_ok_fst box draw dims scale cs disp res h] at hobj
  obtain ⟨c, hcmem, rfl⟩ := List.mem_map.mp hobj
  refine ⟨⟨c, List.mem_of_mem_filter hcmem, rfl⟩, ?_, ?_, ?_⟩
  · obtain ⟨i, hi⟩ := pyRound2_exists_int
      (((cvMoments (npIntp4 (box c))).2.1 / (cvMoments (npIntp4 (box c))).1 -
        dims.1 / 2) * scale.1)
    refine ⟨-i, ?_⟩
    show -(pyRound2 _) = _
    rw [hi]
    push_cast
    ring
  · obtain ⟨i, hi⟩ := pyRound2_exists_int
      (((cvMoments (npIntp4 (box c))).2.2 / (cvMoments (npIntp4 (box c))).1 -
        dims.2 / 2) * scale.2)
    exact ⟨i, hi⟩
  · obtain ⟨i, hi⟩ := pyRound2_exists_int (get_angle (npIntp4 (box c)))
    exact ⟨i, hi⟩

/-- Witness for C10: the object detected from `cRect` has `x = 167/100`,
`y = -45`, and a yaw that is an integer number of hundredths. -/
theorem emitted_values_rounded_witness :
    (∃ i : ℤ, (poseOf bpRect (100, 100) (1/3, 1)).1.1 = (i : ℚ) / 100) ∧
    (∃ i : ℤ, (poseOf bpRect (100, 100) (1/3, 1)).1.2.1 = (i : ℚ) / 100) ∧
    (∃ i : ℤ, (poseOf bpRect (100, 100) (1/3, 1)).2.2.2 = (i : ℝ) / 100) :=
  (emitted_values_rounded boxRect drawNone (100, 100) (1/3, 1) [cRect]
    imgBlack ([poseOf bpRect (100, 100) (1/3, 1)], drawNone bpRect imgBlack)
    (by
      rw [detect_cons_kept _ _ _ _
        (by norm_num [contourArea, cRect, shoelaceSum, shoelaceSum.go,
          crossTerm])
        (by norm_num [cvMoments, cvMoments.momentGo, npIntp4, npIntp,
          boxRect, cRect, shoelaceSum, shoelaceSum.go, crossTerm]),
        detect_nil]
      rfl)
    (poseOf bpRect (100, 100) (1/3, 1)) (by simp)).2

/-- `Except.map` on an `error`. -/
lemma emap_error {ε α β : Type} (f : α → β) (e : ε) :
    (Except.error e : Except ε α).map f = .error e := rfl

/-- `Except.map` on an `ok`. -/
lemma emap_ok {ε α β : Type} (f : α → β) (x : α) :
    (Except.ok x : Except ε α).map f = .ok (f x) := rfl

/-- The detection list of `detect` does not depend on the display buffer
or the drawing routine: those are only written to, never read. -/
lemma detect_fst_indep (box : Contour → QuadQ)
    (draw₁ draw₂ : QuadZ → Img → Img) (dims scale : ℚ × ℚ)
    (cs : List Contour) (d₁ d₂ : Img) :
    (detect box draw₁ dims scale cs d₁).map Prod.fst =
      (detect box draw₂ dims scale cs d₂).map Prod.fst := by
  induction cs generalizing d₁ d₂ with
  | nil => rfl
  | cons c rest ih =>
    by_cases h : 800 < contourArea c
    · by_cases hm : (cvMoments (npIntp4 (box c))).1 = 0
      · rw [detect_cons_degenerate _ _ _ _ h hm,
          detect_cons_degenerate _ _ _ _ h hm]
      · rw [detect_cons_kept _ _ _ _ h hm, detect_cons_kept _ _ _ _ h hm]
        have key := ih (draw₁ (npIntp4 (box c)) d₁) (draw₂ (npIntp4 (box c)) d₂)
        rcases h₁ : detect box draw₁ dims scale rest
            (draw₁ (npIntp4 (box c)) d₁) with ⟨⟩ | ⟨t₁, dd₁⟩
        · rcases h₂ : detect box draw₂ dims scale rest
              (draw₂ (npIntp4 (box c)) d₂) with ⟨⟩ | ⟨t₂, dd₂⟩
          · simp [h₁, h₂]
          · rw [h₁, h₂] at key
            simp only [emap_error, emap_ok] at key
            cases key
        · rcases h₂ : detect box draw₂ dims scale rest
              (draw₂ (npIntp4 (box c)) d₂) with ⟨⟩ | ⟨t₂, dd₂⟩
          · rw [h₁, h₂] at key
            simp only [emap_error, emap_ok] at key
            cases key
          · rw [h₁, h₂] at key
            simp only [emap_ok, Except.ok.injEq] at key
            simp only [h₁, h₂, emap_ok, Except.ok.injEq]
            exact congrArg _ key
    · rw [detect_cons_dropped _ _ _ _ h, detect_cons_dropped _ _ _ _ h]
      exact ih d₁ d₂

section ProcessLemmas

variable (box : Contour → QuadQ) (draw : QuadZ → Img → Img)
variable (contoursOf : ColorClassId → List Contour) (dims scale : ℚ × ℚ)

/-- A fault in the green class aborts `process_image`. -/
lemma process_green_error {rc : Img} {e : Unit}
    (hg : detect box draw dims scale (contoursOf .green) rc = .error e) :
    process_image_detections box draw contoursOf dims scale rc = .error e := by
  unfold process_image_detections
  rw [hg]

/-- A fault in the yellow class aborts `process_image`. -/
lemma process_yellow_error {rc gd : Img} {gl : List DetObj} {e : Unit}
    (hg : detect box draw dims scale (contoursOf .green) rc = .ok (gl, gd))
    (hy : detect box draw dims scale (contoursOf .yellow) gd = .error e) :
    process_image_detections box draw contoursOf dims scale rc = .error e := by
  unfold process_image_detections
  simp only [hg, hy]

/-- A fault in the red class aborts `process_image`. -/
lemma process_red_error {rc gd yd : Img} {gl yl : List DetObj} {e : Unit}
    (hg : detect box draw dims scale (contoursOf .green) rc = .ok (gl, gd))
    (hy : detect box draw dims scale (contoursOf .yellow) gd = .ok (yl, yd))
    (hr : detect box draw dims scale (contoursOf .red) yd = .error e) :
    process_image_detections box draw contoursOf dims scale rc = .error e := by
  unfold process_image_detections
  simp only [hg, hy, hr]

/-- Fault-free composition of the three detection passes. -/
lemma process_ok {rc gd yd rd : Img} {gl yl rl : List DetObj}
    (hg : detect box draw dims scale (contoursOf .green) rc = .ok (gl, gd))
    (hy : detect box draw dims scale (contoursOf .yellow) gd = .ok (yl, yd))
    (hr : detect box draw dims scale (contoursOf .red) yd = .ok (rl, rd)) :
    process_image_detections box draw contoursOf dims scale rc =
      .ok ([gl, yl, rl], rd) := by
  unfold process_image_detections
  simp only [hg, hy, hr]

end ProcessLemmas

/-- The aggregated arrangement of `process_image` is likewise independent
of the initial display buffer and the drawing routine. -/
lemma process_fst_indep (box : Contour → QuadQ)
    (draw₁ draw₂ : QuadZ → Img → Img)
    (contoursOf : ColorClassId → List Contour) (dims scale : ℚ × ℚ)
    (d₁ d₂ : Img) :
    (process_image_detections box draw₁ contoursOf dims scale d₁).map Prod.fst =
      (process_image_detections box draw₂ contoursOf dims scale d₂).map
        Prod.fst := by
  have hg := detect_fst_indep box draw₁ draw₂ dims scale
    (contoursOf .green) d₁ d₂
  rcases e₁ : detect box draw₁ dims scale (contoursOf .green) d₁
    with ⟨⟩ | ⟨gl₁, gd₁⟩ <;>
    rcases e₂ : detect box draw₂ dims scale (contoursOf .green) d₂
      with ⟨⟩ | ⟨gl₂, gd₂⟩ <;>
    rw [e₁, e₂] at hg <;>
    simp only [emap_error, emap_ok, Except.ok.injEq] at hg
  · rw [process_green_error _ _ _ _ _ e₁, process_green_error _ _ _ _ _ e₂]
  · cases hg
  · cases hg
  · have hy := detect_fst_indep box draw₁ draw₂ dims scale
      (contoursOf .yellow) gd₁ gd₂
    rcases y₁ : detect box draw₁ dims scale (contoursOf .yellow) gd₁
      with ⟨⟩ | ⟨yl₁, yd₁⟩ <;>
      rcases y₂ : detect box draw₂ dims scale (contoursOf .yellow) gd₂
        with ⟨⟩ | ⟨yl₂, yd₂⟩ <;>
      rw [y₁, y₂] at hy <;>
      simp only [emap_error, emap_ok, Except.ok.injEq] at hy
    · rw [process_yellow_error _ _ _ _ _ e₁ y₁,
        process_yellow_error _ _ _ _ _ e₂ y₂]
    · cases hy
    · cases hy
    · have hr := detect_fst_indep box draw₁ draw₂ dims scale
        (contoursOf .red) yd₁ yd₂
      rcases r₁ : detect box draw₁ dims scale (contoursOf .red) yd₁
        with ⟨⟩ | ⟨rl₁, rd₁⟩ <;>
        rcases r₂ : detect box draw₂ dims scale (contoursOf .red) yd₂
          with ⟨⟩ | ⟨rl₂, rd₂⟩ <;>
        rw [r₁, r₂] at hr <;>
        simp only [emap_error, emap_ok, Except.ok.injEq] at hr
      · rw [process_red_error _ _ _ _ _ e₁ y₁ r₁,
          process_red_error _ _ _ _ _ e₂ y₂ r₂]
      · cases hr
      · cases hr
      · rw [process_ok _ _ _ _ _ e₁ y₁ r₁, process_ok _ _ _ _ _ e₂ y₂ r₂,
          emap_ok, emap_ok, hg, hy, hr]

/-- **C9.** The detection pipeline is deterministic with no hidden
mutable state influencing its output: the emitted detection sequences are
a pure function of the frame-derived inputs (contours, box fitting, ROI
dimensions, scale). In particular they are independent of the only
threaded buffer — the debug display — and of the drawing routine, both
per class and for the aggregated arrangement, so two runs on the same
frame contents with the same configuration yield identical sequences. -/
theorem detection_deterministic (box : Contour → QuadQ)
    (draw₁ draw₂ : QuadZ → Img → Img) (dims scale : ℚ × ℚ) :
    (∀ cs d₁ d₂, (detect box draw₁ dims scale cs d₁).map Prod.fst =
      (detect box draw₂ dims scale cs d₂).map Prod.fst) ∧
    (∀ contoursOf d₁ d₂,
      (process_image_detections box draw₁ contoursOf dims scale d₁).map
          Prod.fst =
        (process_image_detections box draw₂ contoursOf dims scale d₂).map
          Prod.fst) :=
  ⟨fun cs d₁ d₂ => detect_fst_indep box draw₁ draw₂ dims scale cs d₁ d₂,
   fun contoursOf d₁ d₂ =>
     process_fst_indep box draw₁ draw₂ contoursOf dims scale d₁ d₂⟩

/-- **C4 (counterexample).** Not every configured color class is detected
and aggregated: with one large contour in the blue class's masked image
(and none elsewhere), blue's own detection would produce one object, yet
the final arrangement is `[[], [], []]` — the blue class is segmented
(lines 197-200) but never passed to `detect` (lines 214-216). -/
theorem blue_class_not_aggregated :
    (detect boxRect drawNone (100, 100) (1/3, 1)
        (contoursBlueOnly .blue) imgBlack).map (fun r => r.1.length) =
      .ok 1 ∧
    process_image_detections boxRect drawNone contoursBlueOnly
        (100, 100) (1/3, 1) imgBlack = .ok ([[], [], []], imgBlack) := by
  constructor
  · show (detect boxRect drawNone (100, 100) (1/3, 1) [cRect]
        imgBlack).map (fun r => r.1.length) = .ok 1
    rw [detect_cons_kept _ _ _ _
      (by norm_num [contourArea, cRect, shoelaceSum, shoelaceSum.go,
        crossTerm])
      (by norm_num [cvMoments, cvMoments.momentGo, npIntp4, npIntp,
        boxRect, cRect, shoelaceSum, shoelaceSum.go, crossTerm]),
      detect_nil]
    rfl
  · exact process_ok _ _ _ _ _ (detect_nil _ _ _ _ _) (detect_nil _ _ _ _ _)
      (detect_nil _ _ _ _ _)

/-- **C4 (amended).** The orchestrator runs detection and aggregates the
per-class sequences for the green, yellow, and red classes only, in that
fixed deterministic order (`[cubes, cuboids, long_cuboids]`, lines
214-216 and 232); the blue class, although a mask is configured and
computed for it (`maskedClasses` lists all four), is never detected. -/
theorem aggregation_order_green_yellow_red (box : Contour → QuadQ)
    (draw : QuadZ → Img → Img) (contoursOf : ColorClassId → List Contour)
    (dims scale : ℚ × ℚ) (rc gd yd rd : Img) (gl yl rl : List DetObj)
    (hg : detect box draw dims scale (contoursOf .green) rc = .ok (gl, gd))
    (hy : detect box draw dims scale (contoursOf .yellow) gd = .ok (yl, yd))
    (hr : detect box draw dims scale (contoursOf .red) yd = .ok (rl, rd)) :
    process_image_detections box draw contoursOf dims scale rc =
      .ok ([gl, yl, rl], rd) ∧
    ColorClassId.blue ∈ maskedClasses :=
  ⟨process_ok box draw contoursOf dims scale hg hy hr, by simp [maskedClasses]⟩

/-- Witness for C4 (amended): with no contours anywhere, the arrangement
is the three empty per-class sequences. -/
theorem aggregation_order_witness :
    process_image_detections boxRect drawNone (fun _ => []) (1, 1) (1, 1)
        imgBlack = .ok ([[], [], []], imgBlack) ∧
    ColorClassId.blue ∈ maskedClasses :=
  aggregation_order_green_yellow_red boxRect drawNone (fun _ => []) (1, 1)
    (1, 1) imgBlack imgBlack imgBlack imgBlack [] [] []
    (detect_nil _ _ _ _ _) (detect_nil _ _ _ _ _) (detect_nil _ _ _ _ _)

/-- Norm comparison reduces to comparing the sums of squares. -/
lemma vnorm_lt_vnorm_iff (u v : ℝ × ℝ) :
    vnorm u < vnorm v ↔ u.1 ^ 2 + u.2 ^ 2 < v.1 ^ 2 + v.2 ^ 2 := by
  unfold vnorm
  exact Real.sqrt_lt_sqrt_iff (by positivity)

/-- The first component is bounded by the norm. -/
lemma abs_fst_le_vnorm (e : ℝ × ℝ) : |e.1| ≤ vnorm e := by
  unfold vnorm
  calc |e.1| = Real.sqrt (e.1 ^ 2) := (Real.sqrt_sq_eq_abs e.1).symm
  _ ≤ Real.sqrt (e.1 ^ 2 + e.2 ^ 2) :=
      Real.sqrt_le_sqrt (by nlinarith [sq_nonneg e.2])

/-- **C1 (amended).** For every bounding rectangle whose selected (longer,
ties to the first) adjacent edge `e` is nonzero, `get_angle` returns the
**unsigned** angle `arccos (e.1 / ‖e‖) ∈ [0, π]` between `e` and the
reference axis `(1, 0)` — the source's precedence-mangled arccos argument
collapses to exactly `e.1 / ‖e‖` because the reference is `(1, 0)` —
except at the boundary: when that angle equals `π` (edge along the
negative x-axis), the normalization `(θ + π) mod 2π − π` returns `−π`, so
the result lies in `[−π, π)`, not in the claimed `(−π, π]`. -/
theorem get_angle_is_unsigned_angle (q : QuadZ)
    (hv : 0 < vnorm (usedEdge q)) :
    (-1 < (usedEdge q).1 / vnorm (usedEdge q) →
      get_angle q = Real.arccos ((usedEdge q).1 / vnorm (usedEdge q))) ∧
    ((usedEdge q).1 / vnorm (usedEdge q) = -1 → get_angle q = -Real.pi) := by
  have hbody : get_angle q =
      pymod (Real.arccos ((usedEdge q).1 / vnorm (usedEdge q)) + Real.pi)
        (2 * Real.pi) - Real.pi := by
    simp only [get_angle]
    rw [arccos_arg_eq]
  constructor
  · intro hgt
    have hθlt : Real.arccos ((usedEdge q).1 / vnorm (usedEdge q)) <
        Real.pi :=
      lt_of_le_of_ne (Real.arccos_le_pi _)
        (fun hc => absurd (Real.arccos_eq_pi.mp hc) (not_le.mpr hgt))
    rw [hbody, pymod_shift (Real.arccos_nonneg _) hθlt]
  · intro heq
    rw [hbody, heq, Real.arccos_neg_one, pymod_at_pi]

/-- Witness for C1 (amended): for the rectangle `qUp` the used edge is
`(0, 1)` and `get_angle` returns `arccos 0 = π/2`, the unsigned angle to
the axis `(1, 0)`. -/
theorem get_angle_is_unsigned_angle_witness :
    get_angle qUp = Real.arccos ((usedEdge qUp).1 / vnorm (usedEdge qUp)) := by
  have hcond : ¬ (vnorm (edgeVec (0, 1) (1, 1)) >
      vnorm (edgeVec (0, 0) (0, 1))) := by
    rw [gt_iff_lt, vnorm_lt_vnorm_iff]
    norm_num [edgeVec]
  have hused : usedEdge qUp = edgeVec (0, 0) (0, 1) := by
    simp only [usedEdge, qUp]
    rw [if_neg hcond]
  have hvone : vnorm (usedEdge qUp) = 1 := by
    rw [hused]
    simp only [edgeVec, vnorm]
    norm_num [Real.sqrt_one]
  have hvpos : 0 < vnorm (usedEdge qUp) := by
    rw [hvone]
    norm_num
  have hx : -1 < (usedEdge qUp).1 / vnorm (usedEdge qUp) := by
    rw [hvone, hused]
    norm_num [edgeVec]
  exact (get_angle_is_unsigned_angle qUp hvpos).1 hx

/-- **C1 (counterexample).** For the rectangle `qNegX`, the longer edge is
`(-2, 0)`, whose angle to the reference axis `(1, 0)` is `π` (which the
claimed normalization into `(-π, π]` would leave at `π`), yet `get_angle`
returns `-π`. -/
theorem get_angle_boundary_counterexample :
    get_angle qNegX = -Real.pi ∧ get_angle qNegX ≠ Real.pi := by
  have hcond : ¬ (vnorm (edgeVec (0, 0) (0, 1)) >
      vnorm (edgeVec (2, 0) (0, 0))) := by
    rw [gt_iff_lt, vnorm_lt_vnorm_iff]
    norm_num [edgeVec]
  have hused : usedEdge qNegX = edgeVec (2, 0) (0, 0) := by
    simp only [usedEdge, qNegX]
    rw [if_neg hcond]
  have hv2 : vnorm (edgeVec (2, 0) (0, 0)) = 2 := by
    simp only [edgeVec, vnorm]
    norm_num [sqrt_four]
  have hmain : get_angle qNegX = -Real.pi := by
    simp only [get_angle]
    rw [hused, arccos_arg_eq, hv2]
    norm_num [edgeVec, Real.arccos_neg_one, pymod_at_pi]
  refine ⟨hmain, ?_⟩
  rw [hmain]
  intro hc
  exact Real.pi_ne_zero (by linarith)
